import Mathlib

/-!
Verification development for the `stats-service` daemon of the
`o-psi/psi-ags-conf` repository (`src/stats-service/src/main.rs`).

Modelling conventions:
- Rust `f64` values are modelled by `ℚ`.  Every arithmetic operation the
  daemon performs on these values (sums of counter fields, subtraction of
  baselines, division by a delta, multiplication by 100) is embedded
  literally over `ℚ`; the properties checked here are algebraic identities
  of those formulas, not rounding behaviour.
- Rust `VecDeque<f64>` is modelled by `List ℚ`: `push_back` is appending a
  singleton, `pop_front` is `List.tail`, `len` is `List.length`.
- The process-global mutable baselines (`PREV_CPU_VALUES`,
  `PREV_CORE_VALUES`, `PREV_NET_VALUES`) are threaded explicitly: each
  reader function takes the previous baseline as an argument and returns
  the updated baseline alongside its result.
- Reads from `/proc` files are modelled by passing the parsed content
  (the fields of each line) as an argument; a successful parse of the
  relevant line corresponds to the function being applied at all.
-/

/-- `HISTORY_SIZE` from `main.rs`. -/
def HISTORY_SIZE : Nat := 60

/-- `MemoryStats` from `main.rs` (all fields `f64`, modelled as `ℚ`). -/
structure MemoryStats where
  total : ℚ
  available : ℚ
  used_percentage : ℚ
  apps : ℚ
  cached : ℚ
  buffers : ℚ
  slab : ℚ
  shmem : ℚ
deriving Repr, DecidableEq

/-- `MemoryStats::default()`: every field zero. -/
def MemoryStats.default : MemoryStats :=
  { total := 0, available := 0, used_percentage := 0, apps := 0
    cached := 0, buffers := 0, slab := 0, shmem := 0 }

/-- `SystemStats` from `main.rs`. -/
structure SystemStats where
  timestamp : Int
  cpu_usage : ℚ
  cpu_cores : List ℚ
  cpu_iowait : ℚ
  memory : MemoryStats
  network_download : ℚ
  network_upload : ℚ
deriving Repr, DecidableEq

/-- `StatsHistory` from `main.rs`: one rolling buffer per metric, one per
core, plus the two scalars that are not historized. -/
structure StatsHistory where
  cpu : List ℚ
  cpu_cores : List (List ℚ)
  cpu_iowait : List ℚ
  memory : List ℚ
  memory_total : ℚ
  memory_apps : List ℚ
  memory_cached : List ℚ
  memory_buffers : List ℚ
  memory_slab : List ℚ
  memory_shmem : List ℚ
  network_download : List ℚ
  network_upload : List ℚ
  last_update : Int
deriving Repr, DecidableEq

/-- `StatsHistory::new()`: every buffer pre-filled with `HISTORY_SIZE`
zeros; `num_cores` per-core buffers, each pre-filled likewise.  The core
count comes from `num_cpus::get()` at startup and is passed as an
argument here. -/
def StatsHistory.new (num_cores : Nat) : StatsHistory :=
  { cpu := List.replicate HISTORY_SIZE 0
    cpu_cores := List.replicate num_cores (List.replicate HISTORY_SIZE 0)
    cpu_iowait := List.replicate HISTORY_SIZE 0
    memory := List.replicate HISTORY_SIZE 0
    memory_total := 0
    memory_apps := List.replicate HISTORY_SIZE 0
    memory_cached := List.replicate HISTORY_SIZE 0
    memory_buffers := List.replicate HISTORY_SIZE 0
    memory_slab := List.replicate HISTORY_SIZE 0
    memory_shmem := List.replicate HISTORY_SIZE 0
    network_download := List.replicate HISTORY_SIZE 0
    network_upload := List.replicate HISTORY_SIZE 0
    last_update := 0 }

/-- `StatsHistory::add_value`: `push_back`, then `pop_front` when the
length exceeds `HISTORY_SIZE`. -/
def StatsHistory.add_value (queue : List ℚ) (value : ℚ) : List ℚ :=
  let q := queue ++ [value]
  if q.length > HISTORY_SIZE then q.tail else q

/-- The per-core loop of `StatsHistory::add_stats`: for each index `i`
into the sample's `cpu_cores`, push into buffer `i` when `i` is within
the buffer list; readings beyond the buffer count are dropped, buffers
beyond the reading count are left untouched. -/
def updateCores : List (List ℚ) → List ℚ → List (List ℚ)
  | bufs, [] => bufs
  | [], _ => []
  | b :: bs, v :: vs => StatsHistory.add_value b v :: updateCores bs vs

/-- `StatsHistory::add_stats`. -/
def StatsHistory.add_stats (h : StatsHistory) (stats : SystemStats) : StatsHistory :=
  { cpu := StatsHistory.add_value h.cpu stats.cpu_usage
    cpu_iowait := StatsHistory.add_value h.cpu_iowait stats.cpu_iowait
    cpu_cores := updateCores h.cpu_cores stats.cpu_cores
    memory := StatsHistory.add_value h.memory stats.memory.used_percentage
    memory_total := stats.memory.total
    memory_apps := StatsHistory.add_value h.memory_apps stats.memory.apps
    memory_cached := StatsHistory.add_value h.memory_cached stats.memory.cached
    memory_buffers := StatsHistory.add_value h.memory_buffers stats.memory.buffers
    memory_slab := StatsHistory.add_value h.memory_slab stats.memory.slab
    memory_shmem := StatsHistory.add_value h.memory_shmem stats.memory.shmem
    network_download := StatsHistory.add_value h.network_download stats.network_download
    network_upload := StatsHistory.add_value h.network_upload stats.network_upload
    last_update := stats.timestamp }

/-- The invariant of claim C1: every history buffer (the ten named ones
and every per-core buffer) has length exactly `HISTORY_SIZE`. -/
def allLen60 (h : StatsHistory) : Prop :=
  h.cpu.length = HISTORY_SIZE ∧
  h.cpu_iowait.length = HISTORY_SIZE ∧
  h.memory.length = HISTORY_SIZE ∧
  h.memory_apps.length = HISTORY_SIZE ∧
  h.memory_cached.length = HISTORY_SIZE ∧
  h.memory_buffers.length = HISTORY_SIZE ∧
  h.memory_slab.length = HISTORY_SIZE ∧
  h.memory_shmem.length = HISTORY_SIZE ∧
  h.network_download.length = HISTORY_SIZE ∧
  h.network_upload.length = HISTORY_SIZE ∧
  ∀ b ∈ h.cpu_cores, b.length = HISTORY_SIZE

instance (h : StatsHistory) : Decidable (allLen60 h) := by
  unfold allLen60; infer_instance

lemma add_value_len_eq (q : List ℚ) (v : ℚ) (hq : q.length = HISTORY_SIZE) :
    (StatsHistory.add_value q v).length = HISTORY_SIZE := by
  simp only [StatsHistory.add_value]
  rw [if_pos]
  · rw [List.length_tail]
    simp [hq]
  · simp [hq]

lemma add_value_fifo (q : List ℚ) (v : ℚ) (hq : q.length = HISTORY_SIZE) :
    StatsHistory.add_value q v = q.tail ++ [v] := by
  have hpos : q ≠ [] := by
    intro h; subst h; simp [HISTORY_SIZE] at hq
  simp only [StatsHistory.add_value, List.length_append, List.length_singleton, hq]
  rw [if_pos (by norm_num [HISTORY_SIZE])]
  cases q with
  | nil => exact absurd rfl hpos
  | cons a as => simp

lemma updateCores_length (bufs : List (List ℚ)) (vals : List ℚ) :
    (updateCores bufs vals).length = bufs.length := by
  induction bufs generalizing vals with
  | nil => cases vals <;> simp [updateCores]
  | cons b bs ih =>
    cases vals with
    | nil => simp [updateCores]
    | cons v vs => simp [updateCores, ih]

lemma updateCores_len60 (bufs : List (List ℚ)) (vals : List ℚ)
    (hb : ∀ b ∈ bufs, b.length = HISTORY_SIZE) :
    ∀ b ∈ updateCores bufs vals, b.length = HISTORY_SIZE := by
  induction bufs generalizing vals with
  | nil => cases vals <;> simp [updateCores]
  | cons b bs ih =>
    cases vals with
    | nil => exact hb
    | cons v vs =>
      intro c hc
      simp only [updateCores, List.mem_cons] at hc
      rcases hc with hc | hc
      · subst hc
        exact add_value_len_eq b v (hb b (by simp))
      · exact ih vs (fun x hx => hb x (by simp [hx])) c hc

lemma allLen60_new (n : Nat) : allLen60 (StatsHistory.new n) := by
  refine ⟨by simp [StatsHistory.new], by simp [StatsHistory.new],
    by simp [StatsHistory.new], by simp [StatsHistory.new],
    by simp [StatsHistory.new], by simp [StatsHistory.new],
    by simp [StatsHistory.new], by simp [StatsHistory.new],
    by simp [StatsHistory.new], by simp [StatsHistory.new], ?_⟩
  intro b hb
  simp only [StatsHistory.new] at hb
  rw [List.eq_of_mem_replicate hb]
  simp

lemma allLen60_add_stats (h : StatsHistory) (s : SystemStats)
    (hh : allLen60 h) : allLen60 (h.add_stats s) := by
  obtain ⟨h1, h2, h3, h4, h5, h6, h7, h8, h9, h10, h11⟩ := hh
  refine ⟨?_, ?_, ?_, ?_, ?_, ?_, ?_, ?_, ?_, ?_, ?_⟩
  · exact add_value_len_eq _ _ h1
  · exact add_value_len_eq _ _ h2
  · exact add_value_len_eq _ _ h3
  · exact add_value_len_eq _ _ h4
  · exact add_value_len_eq _ _ h5
  · exact add_value_len_eq _ _ h6
  · exact add_value_len_eq _ _ h7
  · exact add_value_len_eq _ _ h8
  · exact add_value_len_eq _ _ h9
  · exact add_value_len_eq _ _ h10
  · exact updateCores_len60 _ _ h11

lemma allLen60_foldl (h : StatsHistory) (ticks : List SystemStats)
    (hh : allLen60 h) : allLen60 (ticks.foldl StatsHistory.add_stats h) := by
  induction ticks generalizing h with
  | nil => exact hh
  | cons t ts ih => exact ih _ (allLen60_add_stats h t hh)

/-! ## CPU sampler (`read_cpu_stats`) -/

/-- One parsed line of the CPU-time-in-states table: the seven fields the
daemon reads (`user nice system idle iowait irq softirq`), each parsed
with `unwrap_or(0.0)`. -/
structure CpuLine where
  user : ℚ
  nice : ℚ
  system : ℚ
  idle : ℚ
  iowait : ℚ
  irq : ℚ
  softirq : ℚ
deriving Repr, DecidableEq

/-- The totals the daemon derives from a CPU line:
`idle_time = idle`, `non_idle = user+nice+system+irq+softirq`,
`total = idle_time + non_idle + iowait`.  Returns
`(total, idle_time, iowait)`. -/
def lineTotals (l : CpuLine) : ℚ × ℚ × ℚ :=
  let idle_time := l.idle
  let non_idle := l.user + l.nice + l.system + l.irq + l.softirq
  let total := idle_time + non_idle + l.iowait
  (total, idle_time, l.iowait)

/-- The aggregate-CPU branch of `read_cpu_stats`: given the parsed first
line and the previous `PREV_CPU_VALUES` baseline, returns
`((overall_usage, iowait_percentage), new baseline)`. -/
def readAggCpu (line : CpuLine) (prev : Option (ℚ × ℚ × ℚ)) :
    (ℚ × ℚ) × Option (ℚ × ℚ × ℚ) :=
  let (total, idle_time, iowait) := lineTotals line
  match prev with
  | some (prev_total, prev_idle, prev_iowait) =>
    let total_delta := total - prev_total
    let idle_delta := idle_time - prev_idle
    let iowait_delta := iowait - prev_iowait
    if total_delta > 0 then
      (((total_delta - idle_delta - iowait_delta) / total_delta * 100,
        iowait_delta / total_delta * 100),
       some (total, idle_time, iowait))
    else
      ((0, 0), some (total, idle_time, iowait))
  | none => ((0, 0), some (total, idle_time, iowait))

/-- What the per-core loop of `read_cpu_stats` keeps for each core:
`(total, idle_time)` only (per-core iowait enters `total` but is not
stored separately). -/
def coreStat (l : CpuLine) : ℚ × ℚ :=
  let (total, idle_time, _) := lineTotals l
  (total, idle_time)

/-- The per-core branch of `read_cpu_stats`: given the parsed per-core
lines and the previous `PREV_CORE_VALUES` baseline, returns
`(core_usage, new baseline)`.  With a matching baseline, each core's
usage is `(total_delta - idle_delta) / total_delta * 100` when
`total_delta > 0`, else 0; on count mismatch or with no baseline, all
zeros. -/
def readCores (lines : List CpuLine) (prev : Option (List (ℚ × ℚ))) :
    List ℚ × Option (List (ℚ × ℚ)) :=
  let core_stats := lines.map coreStat
  match prev with
  | some prev_cores =>
    if prev_cores.length = core_stats.length then
      ((core_stats.zip prev_cores).map (fun p =>
        let total_delta := p.1.1 - p.2.1
        let idle_delta := p.1.2 - p.2.2
        if total_delta > 0 then (total_delta - idle_delta) / total_delta * 100
        else 0),
       some core_stats)
    else
      (List.replicate core_stats.length 0, some core_stats)
  | none => (List.replicate core_stats.length 0, some core_stats)

/-- A concrete sample used by witnesses. -/
def sampleStats : SystemStats :=
  { timestamp := 5, cpu_usage := 1, cpu_cores := [2, 3], cpu_iowait := 4
    memory := MemoryStats.default, network_download := 6, network_upload := 7 }

/-- C1: after `StatsHistory::new()` pre-fills the store with zeros, every
history buffer has length exactly 60 after any sequence of `add_stats`
calls (hence at all times), and a push onto a full buffer evicts the
oldest element first-in-first-out. -/
theorem C1_history_len_invariant :
    (∀ (n : Nat) (ticks : List SystemStats),
      allLen60 (ticks.foldl StatsHistory.add_stats (StatsHistory.new n))) ∧
    (∀ (q : List ℚ) (v : ℚ), q.length = HISTORY_SIZE →
      StatsHistory.add_value q v = q.tail ++ [v]) :=
  ⟨fun n ticks => allLen60_foldl _ ticks (allLen60_new n),
   fun q v hq => add_value_fifo q v hq⟩

/-- Witness for C1 at a concrete input. -/
theorem C1_history_len_invariant_witness :
    allLen60 ([sampleStats].foldl StatsHistory.add_stats (StatsHistory.new 2)) ∧
    StatsHistory.add_value (List.replicate 60 (0 : ℚ)) 5 =
      (List.replicate 60 (0 : ℚ)).tail ++ [5] :=
  ⟨C1_history_len_invariant.1 2 [sampleStats],
   C1_history_len_invariant.2 (List.replicate 60 0) 5 (by simp [HISTORY_SIZE])⟩

/-- C2: with a baseline and positive `Δtotal`, the aggregate CPU branch
reports usage `100 * (Δtotal − Δidle − Δiowait) / Δtotal` and iowait
`100 * Δiowait / Δtotal`; with no baseline, or `Δtotal ≤ 0`, it reports
`(0, 0)`; the spec's concrete example `Δtotal = 1000, Δidle = 700,
Δiowait = 50` yields `(25, 5)`. -/
theorem C2_aggregate_cpu :
    (∀ (line : CpuLine) (pt pi pw : ℚ),
      (lineTotals line).1 - pt > 0 →
      (readAggCpu line (some (pt, pi, pw))).1 =
        (100 * (((lineTotals line).1 - pt) - ((lineTotals line).2.1 - pi) -
            ((lineTotals line).2.2 - pw)) / ((lineTotals line).1 - pt),
         100 * ((lineTotals line).2.2 - pw) / ((lineTotals line).1 - pt))) ∧
    (∀ line : CpuLine, (readAggCpu line none).1 = (0, 0)) ∧
    (∀ (line : CpuLine) (pt pi pw : ℚ),
      (lineTotals line).1 - pt ≤ 0 →
      (readAggCpu line (some (pt, pi, pw))).1 = (0, 0)) ∧
    (readAggCpu ⟨250, 0, 0, 700, 50, 0, 0⟩ (some (0, 0, 0))).1 = (25, 5) := by
  refine ⟨?_, ?_, ?_, by norm_num [readAggCpu, lineTotals]⟩
  · intro line pt pi pw h
    simp only [readAggCpu, lineTotals] at *
    rw [if_pos h]
    dsimp only
    rw [Prod.mk.injEq]
    constructor <;> ring
  · intro line
    simp [readAggCpu, lineTotals]
  · intro line pt pi pw h
    simp only [readAggCpu, lineTotals] at *
    rw [if_neg (by exact not_lt.mpr h)]

/-- Witness for C2 at a concrete input. -/
theorem C2_aggregate_cpu_witness :
    (readAggCpu ⟨250, 0, 0, 700, 50, 0, 0⟩ (some (0, 0, 0))).1 =
      (100 * ((1000 : ℚ) - 700 - 50) / 1000, 100 * ((50 : ℚ) - 0) / 1000) := by
  have h := C2_aggregate_cpu.1 ⟨250, 0, 0, 700, 50, 0, 0⟩ 0 0 0
    (by norm_num [lineTotals])
  rw [h]
  norm_num [lineTotals]

/-- C3 counterexample: the per-core branch does NOT subtract `Δiowait`.
For a core with `Δtotal = 1000`, `Δidle = 700`, `Δiowait = 50` the code
reports 30, while the claimed aggregate formula gives 25. -/
theorem C3_percore_counterexample :
    (readCores [⟨250, 0, 0, 700, 50, 0, 0⟩] (some [(0, 0)])).1 = [30] ∧
    100 * ((1000 : ℚ) - 700 - 50) / 1000 = 25 ∧ (30 : ℚ) ≠ 25 := by
  refine ⟨by norm_num [readCores, coreStat, lineTotals], by norm_num, by norm_num⟩

/-- C3 amended: for every core with a matching baseline and positive
`Δtotal`, the per-core usage is `100 * (Δtotal − Δidle) / Δtotal` — the
core's iowait time enters `total` but is NOT excluded from usage, unlike
the aggregate formula. -/
theorem C3_percore_usage :
    ∀ (lines : List CpuLine) (prev : List (ℚ × ℚ)) (i : Nat)
      (c : CpuLine) (p : ℚ × ℚ),
      prev.length = lines.length →
      lines[i]? = some c → prev[i]? = some p →
      (coreStat c).1 - p.1 > 0 →
      (readCores lines (some prev)).1[i]? =
        some (100 * (((coreStat c).1 - p.1) - ((coreStat c).2 - p.2)) /
          ((coreStat c).1 - p.1)) := by
  intro lines prev i c p hlen hc hp hpos
  simp only [readCores]
  rw [if_pos (by simp [hlen])]
  have hmc : (lines.map coreStat)[i]? = some (coreStat c) := by
    simp [List.getElem?_map, hc]
  have hz : ((lines.map coreStat).zip prev)[i]? = some (coreStat c, p) := by
    rw [List.getElem?_zip_eq_some]
    exact ⟨hmc, hp⟩
  rw [List.getElem?_map, hz]
  simp only [Option.map_some']
  rw [if_pos hpos]
  congr 1
  ring

/-- Witness for C3's amended claim at a concrete input. -/
theorem C3_percore_usage_witness :
    (readCores [⟨250, 0, 0, 700, 50, 0, 0⟩] (some [(0, 0)])).1[0]? =
      some (100 * (((1000 : ℚ) - 0) - ((700 : ℚ) - 0)) / ((1000 : ℚ) - 0)) := by
  have h := C3_percore_usage [⟨250, 0, 0, 700, 50, 0, 0⟩] [(0, 0)] 0
    ⟨250, 0, 0, 700, 50, 0, 0⟩ (0, 0) rfl rfl rfl (by norm_num [coreStat, lineTotals])
  rw [h]
  norm_num [coreStat, lineTotals]

lemma updateCores_take (bufs : List (List ℚ)) (vals : List ℚ) :
    updateCores bufs vals = updateCores bufs (vals.take bufs.length) := by
  induction bufs generalizing vals with
  | nil => cases vals <;> simp [updateCores]
  | cons b bs ih =>
    cases vals with
    | nil => simp
    | cons v vs =>
      simp only [List.length_cons, List.take_succ_cons, updateCores]
      rw [← ih vs]

lemma updateCores_getElem_of_le (bufs : List (List ℚ)) (vals : List ℚ)
    (i : Nat) (h : vals.length ≤ i) :
    (updateCores bufs vals)[i]? = bufs[i]? := by
  induction bufs generalizing vals i with
  | nil => cases vals <;> simp [updateCores]
  | cons b bs ih =>
    cases vals with
    | nil => simp [updateCores]
    | cons v vs =>
      cases i with
      | zero => simp at h
      | succ n =>
        simp only [updateCores, List.getElem?_cons_succ]
        exact ih vs n (by simpa using h)

/-- C4 counterexample: after a tick whose sample carries values `[1, 7]`
for two cores, a second tick supplying only `[5]` leaves core 1's buffer
exactly as it was (`replicate 59 0 ++ [7]`); pushing the claimed default
0 would have produced a different buffer. -/
theorem C4_missing_core_counterexample :
    (((StatsHistory.new 2).add_stats { sampleStats with cpu_cores := [1, 7] }).add_stats
        { sampleStats with cpu_cores := [5] }).cpu_cores[1]? =
      some (List.replicate 59 (0 : ℚ) ++ [7]) ∧
    StatsHistory.add_value (List.replicate 59 (0 : ℚ) ++ [7]) 0 ≠
      List.replicate 59 (0 : ℚ) ++ [7] := by
  constructor
  · have h7 : StatsHistory.add_value (List.replicate HISTORY_SIZE 0) 7 =
        List.replicate 59 (0 : ℚ) ++ [7] := by
      rw [add_value_fifo _ _ (by simp)]
      simp [HISTORY_SIZE]
    simp only [StatsHistory.add_stats, StatsHistory.new, updateCores, h7]
    simp
  · intro h
    have h1 : (StatsHistory.add_value (List.replicate 59 (0 : ℚ) ++ [7]) 0).getLast? =
        some 0 := by
      rw [add_value_fifo _ _ (by simp [HISTORY_SIZE])]
      simp [List.getLast?_concat]
    rw [h] at h1
    simp [List.getLast?_concat] at h1

/-- C4 amended: `add_stats` never resizes the per-core buffer list;
readings at indices beyond the buffer count are dropped (the update only
depends on the first `cpu_cores.length` readings); and when fewer
readings than buffers are supplied, each missing core's buffer is left
entirely unchanged for that tick — no value, zero or otherwise, is
appended to it. -/
theorem C4_percore_update :
    ∀ (h : StatsHistory) (s : SystemStats),
      (h.add_stats s).cpu_cores.length = h.cpu_cores.length ∧
      (h.add_stats s).cpu_cores =
        updateCores h.cpu_cores (s.cpu_cores.take h.cpu_cores.length) ∧
      ∀ i : Nat, s.cpu_cores.length ≤ i →
        (h.add_stats s).cpu_cores[i]? = h.cpu_cores[i]? := by
  intro h s
  refine ⟨updateCores_length _ _, ?_, ?_⟩
  · exact updateCores_take h.cpu_cores s.cpu_cores
  · intro i hi
    exact updateCores_getElem_of_le h.cpu_cores s.cpu_cores i hi

/-- Witness for C4's amended claim at a concrete input. -/
theorem C4_percore_update_witness :
    ((StatsHistory.new 2).add_stats { sampleStats with cpu_cores := [5] }).cpu_cores[1]? =
      (StatsHistory.new 2).cpu_cores[1]? :=
  (C4_percore_update (StatsHistory.new 2)
    { sampleStats with cpu_cores := [5] }).2.2 1 (by norm_num)

/-! ## Network sampler (`read_network_stats`) -/

/-- One parsed interface line of the network counters table: the
interface name and the first receive column and ninth transmit column,
each parsed with `unwrap_or(0)`. -/
structure NetLine where
  name : String
  rx : Nat
  tx : Nat
deriving Repr, DecidableEq

/-- Whether a character sequence begins with a given pattern. -/
def startsWithSeq : List Char → List Char → Bool
  | _, [] => true
  | [], _ :: _ => false
  | a :: as, b :: bs => a == b && startsWithSeq as bs

/-- Whether a character sequence holds a given pattern as a contiguous
subsequence. -/
def containsSeq : List Char → List Char → Bool
  | [], pat => startsWithSeq [] pat
  | h :: t, pat => startsWithSeq (h :: t) pat || containsSeq t pat

/-- The loop's skip test, `line.contains("lo:")`: on a well-formed
counters line `name: v0 v1 ...` the rest of the line is digits and
whitespace, so the pattern `lo:` occurs in the line exactly when it
occurs in `name ++ ":"`. -/
def lineHasLo (name : String) : Bool :=
  containsSeq (name ++ ":").toList "lo:".toList

/-- The summation loop of `read_network_stats`: accumulate `rx`/`tx`
over every line that does not match the loopback test. -/
def netSums (lines : List NetLine) : Nat × Nat :=
  lines.foldl
    (fun acc l => if lineHasLo l.name then acc else (acc.1 + l.rx, acc.2 + l.tx))
    (0, 0)

/-- `read_network_stats`: given the parsed interface lines, the previous
`PREV_NET_VALUES` baseline and the current instant (seconds, as `ℚ`),
returns `((download, upload), new baseline)`. -/
def read_network_stats (lines : List NetLine) (prev : Option (ℚ × ℚ × ℚ))
    (now : ℚ) : (ℚ × ℚ) × Option (ℚ × ℚ × ℚ) :=
  let (rx_bytes, tx_bytes) := netSums lines
  match prev with
  | some (prev_rx, prev_tx, prev_time) =>
    let time_diff := now - prev_time
    if time_diff > 0 then
      ((((rx_bytes : ℚ) - prev_rx) / 1024 / time_diff,
        ((tx_bytes : ℚ) - prev_tx) / 1024 / time_diff),
       some ((rx_bytes : ℚ), (tx_bytes : ℚ), now))
    else ((0, 0), some ((rx_bytes : ℚ), (tx_bytes : ℚ), now))
  | none => ((0, 0), some ((rx_bytes : ℚ), (tx_bytes : ℚ), now))

lemma netSums_foldl (lines : List NetLine) (a b : Nat) :
    lines.foldl
      (fun acc l => if lineHasLo l.name then acc else (acc.1 + l.rx, acc.2 + l.tx))
      (a, b) =
    (a + (((lines.filter fun l => !lineHasLo l.name).map NetLine.rx).sum),
     b + (((lines.filter fun l => !lineHasLo l.name).map NetLine.tx).sum)) := by
  induction lines generalizing a b with
  | nil => simp
  | cons l ls ih =>
    by_cases hl : lineHasLo l.name
    · simp only [List.foldl_cons, if_pos hl, List.filter_cons, hl]
      simpa using ih a b
    · simp only [List.foldl_cons, if_neg hl, List.filter_cons, hl]
      rw [ih]
      simp [Nat.add_assoc]

/-- C5: the summation covers exactly the non-loopback lines; with no
baseline (first tick) the rates are `(0, 0)`; with a baseline and a
positive wall-clock delta the rates are `Δbytes / 1024 / Δseconds`; and
a negative byte delta is not special-cased, yielding a negative rate. -/
theorem C5_network_rates :
    (∀ lines : List NetLine,
      netSums lines =
        (((lines.filter fun l => !lineHasLo l.name).map NetLine.rx).sum,
         ((lines.filter fun l => !lineHasLo l.name).map NetLine.tx).sum)) ∧
    (∀ (lines : List NetLine) (now : ℚ),
      (read_network_stats lines none now).1 = (0, 0)) ∧
    (∀ (lines : List NetLine) (prev_rx prev_tx prev_time now : ℚ),
      now - prev_time > 0 →
      (read_network_stats lines (some (prev_rx, prev_tx, prev_time)) now).1 =
        ((((netSums lines).1 : ℚ) - prev_rx) / 1024 / (now - prev_time),
         (((netSums lines).2 : ℚ) - prev_tx) / 1024 / (now - prev_time))) ∧
    (∀ (lines : List NetLine) (prev_rx prev_tx prev_time now : ℚ),
      now - prev_time > 0 → ((netSums lines).1 : ℚ) < prev_rx →
      (read_network_stats lines (some (prev_rx, prev_tx, prev_time)) now).1.1 < 0) := by
  refine ⟨?_, ?_, ?_, ?_⟩
  · intro lines
    simpa using netSums_foldl lines 0 0
  · intro lines now
    simp [read_network_stats]
  · intro lines prev_rx prev_tx prev_time now h
    simp only [read_network_stats]
    rw [if_pos h]
  · intro lines prev_rx prev_tx prev_time now ht hneg
    simp only [read_network_stats]
    rw [if_pos ht]
    have h1 : ((netSums lines).1 : ℚ) - prev_rx < 0 := by linarith
    have h2 : (((netSums lines).1 : ℚ) - prev_rx) / 1024 < 0 :=
      div_neg_of_neg_of_pos h1 (by norm_num)
    exact div_neg_of_neg_of_pos h2 ht

/-- Witness for C5 at a concrete input: one non-loopback interface with
2048 received and 1024 transmitted bytes over a 2-second delta. -/
theorem C5_network_rates_witness :
    (read_network_stats [⟨"eth0", 2048, 1024⟩] (some (0, 0, 0)) 2).1 = (1, 1 / 2) := by
  have h := C5_network_rates.2.2.1 [⟨"eth0", 2048, 1024⟩] 0 0 0 2 (by norm_num)
  rw [h]
  have hs : netSums [⟨"eth0", 2048, 1024⟩] = (2048, 1024) := by rfl
  rw [hs]
  norm_num

/-- C6: every branch of each reader re-records the baseline from the
latest raw reading — the aggregate CPU triple, the per-core pair list
and the network byte totals with the current instant — regardless of
whether a baseline existed, the delta was degenerate, or the core count
mismatched. -/
theorem C6_baselines_updated_unconditionally :
    (∀ (line : CpuLine) (prev : Option (ℚ × ℚ × ℚ)),
      (readAggCpu line prev).2 = some (lineTotals line)) ∧
    (∀ (lines : List CpuLine) (prev : Option (List (ℚ × ℚ))),
      (readCores lines prev).2 = some (lines.map coreStat)) ∧
    (∀ (lines : List NetLine) (prev : Option (ℚ × ℚ × ℚ)) (now : ℚ),
      (read_network_stats lines prev now).2 =
        some (((netSums lines).1 : ℚ), ((netSums lines).2 : ℚ), now)) := by
  refine ⟨?_, ?_, ?_⟩
  · intro line prev
    rcases prev with _ | ⟨⟨pt, pi, pw⟩⟩ <;>
      (simp only [readAggCpu, lineTotals]; all_goals (split_ifs <;> rfl))
  · intro lines prev
    rcases prev with _ | ⟨pc⟩ <;>
      (simp only [readCores]; all_goals (split_ifs <;> rfl))
  · intro lines prev now
    rcases prev with _ | ⟨⟨pr, ptx, ptm⟩⟩ <;>
      (simp only [read_network_stats]; all_goals (split_ifs <;> rfl))

/-! ## Memory sampler (`read_memory_stats`) -/

/-- `read_memory_stats`: the parsed key-to-value table of the memory
source is passed as a lookup function; every field is fetched with
`unwrap_or(0.0)`, and `used_percentage` stays at its `Default` value 0
unless `total > 0`. -/
def read_memory_stats (info : String → Option ℚ) : MemoryStats :=
  let total := (info "MemTotal").getD 0
  let available := (info "MemAvailable").getD 0
  let active_anon := (info "Active(anon)").getD 0
  let inactive_anon := (info "Inactive(anon)").getD 0
  let shmem := (info "Shmem").getD 0
  let slab := (info "Slab").getD 0
  let buffers := (info "Buffers").getD 0
  let cached := (info "Cached").getD 0
  { total := total
    available := available
    used_percentage := if total > 0 then (total - available) / total * 100 else 0
    apps := active_anon + inactive_anon
    cached := cached
    buffers := buffers
    slab := slab
    shmem := shmem }

/-- C7: `used_percentage = 100 * (total − available) / total` when
`total > 0` and 0 when `total = 0`; `apps` is the sum of the two
anonymous-memory fields; `cached`, `buffers`, `slab`, `shmem` map
directly; a missing field reads as 0 without failing. -/
theorem C7_memory_stats :
    ∀ info : String → Option ℚ,
      ((info "MemTotal").getD 0 > 0 →
        (read_memory_stats info).used_percentage =
          100 * ((info "MemTotal").getD 0 - (info "MemAvailable").getD 0) /
            (info "MemTotal").getD 0) ∧
      ((info "MemTotal").getD 0 = 0 →
        (read_memory_stats info).used_percentage = 0) ∧
      (read_memory_stats info).apps =
        (info "Active(anon)").getD 0 + (info "Inactive(anon)").getD 0 ∧
      (read_memory_stats info).cached = (info "Cached").getD 0 ∧
      (read_memory_stats info).buffers = (info "Buffers").getD 0 ∧
      (read_memory_stats info).slab = (info "Slab").getD 0 ∧
      (read_memory_stats info).shmem = (info "Shmem").getD 0 ∧
      (read_memory_stats info).total = (info "MemTotal").getD 0 ∧
      (read_memory_stats info).available = (info "MemAvailable").getD 0 ∧
      (info "Cached" = none → (read_memory_stats info).cached = 0) := by
  intro info
  refine ⟨?_, ?_, rfl, rfl, rfl, rfl, rfl, rfl, rfl, ?_⟩
  · intro h
    simp only [read_memory_stats]
    rw [if_pos h]
    ring
  · intro h
    simp only [read_memory_stats]
    rw [if_neg (by rw [h]; exact lt_irrefl 0)]
  · intro h
    simp [read_memory_stats, h]

/-- A concrete memory table used by the C7 witness. -/
def memTableEx : String → Option ℚ := fun s =>
  if s = "MemTotal" then some 1000
  else if s = "MemAvailable" then some 250
  else if s = "Active(anon)" then some 100
  else if s = "Inactive(anon)" then some 40
  else none

/-- Witness for C7 at a concrete input. -/
theorem C7_memory_stats_witness :
    (read_memory_stats memTableEx).used_percentage = 75 ∧
    (read_memory_stats memTableEx).apps = 140 ∧
    (read_memory_stats memTableEx).cached = 0 := by
  have h := C7_memory_stats memTableEx
  have e1 : memTableEx "MemTotal" = some 1000 := rfl
  have e2 : memTableEx "MemAvailable" = some 250 := rfl
  have e3 : memTableEx "Active(anon)" = some 100 := rfl
  have e4 : memTableEx "Inactive(anon)" = some 40 := rfl
  have e5 : memTableEx "Cached" = none := rfl
  refine ⟨?_, ?_, ?_⟩
  · rw [h.1 (by rw [e1]; norm_num)]
    rw [e1, e2]
    norm_num
  · rw [h.2.2.1, e3, e4]
    norm_num
  · exact h.2.2.2.2.2.2.2.2.2 e5

/-! ## Lifecycle guard (startup section of `main`) -/

/-- The filesystem and process state the startup check depends on:
whether the marker file exists (and its content), whether reading it
succeeds, and which process ids are live (`/proc/{pid}` exists). -/
structure PidWorld where
  pidFile : Option String
  readable : Bool
  alive : Nat → Bool

/-- Strip leading and trailing whitespace from a character sequence. -/
def trimChars (l : List Char) : List Char :=
  ((l.dropWhile Char.isWhitespace).reverse.dropWhile Char.isWhitespace).reverse

/-- Read a sequence of decimal digits as a number; any non-digit makes
the parse fail. -/
def digitsVal : List Char → Nat → Option Nat
  | [], acc => some acc
  | c :: cs, acc =>
    if c.isDigit then digitsVal cs (acc * 10 + (c.toNat - 48)) else none

/-- `pid_str.trim().parse::<u32>()`: trim, then parse as an unsigned
32-bit decimal integer (empty or non-numeric content fails, as does a
value beyond the 32-bit range). -/
def parsePid (s : String) : Option Nat :=
  let t := trimChars s.toList
  if t = [] then none
  else
    match digitsVal t 0 with
    | some n => if n < 2 ^ 32 then some n else none
    | none => none

/-- Outcome of the startup singleton check. -/
inductive StartupOutcome where
  | exitNonzero
  | proceed
deriving Repr, DecidableEq

/-- The startup singleton check of `main`: if the marker file exists,
reads, parses, and names a live pid, exit with status 1 touching
nothing; in every other case fall through and overwrite the marker with
the current process id. -/
def lifecycleGuard (w : PidWorld) (myPid : Nat) : StartupOutcome × PidWorld :=
  let check :=
    match w.pidFile with
    | some contents =>
      if w.readable then
        match parsePid contents with
        | some pid => w.alive pid
        | none => false
      else false
    | none => false
  if check then (StartupOutcome.exitNonzero, w)
  else (StartupOutcome.proceed, { w with pidFile := some (toString myPid) })

/-- C8: a live recorded pid makes the daemon exit non-zero with the
world untouched; any other state (no marker, unreadable marker,
unparsable marker, or stale pid) proceeds and overwrites the marker with
the daemon's own pid. -/
theorem C8_singleton_guard :
    (∀ (w : PidWorld) (myPid pid : Nat) (contents : String),
      w.pidFile = some contents → w.readable = true →
      parsePid contents = some pid → w.alive pid = true →
      lifecycleGuard w myPid = (StartupOutcome.exitNonzero, w)) ∧
    (∀ (w : PidWorld) (myPid : Nat),
      (¬ ∃ (contents : String) (pid : Nat),
        w.pidFile = some contents ∧ w.readable = true ∧
        parsePid contents = some pid ∧ w.alive pid = true) →
      lifecycleGuard w myPid =
        (StartupOutcome.proceed, { w with pidFile := some (toString myPid) })) := by
  constructor
  · intro w myPid pid contents hf hr hp ha
    simp only [lifecycleGuard, hf, hr, hp, ha]
    simp
  · intro w myPid hno
    simp only [lifecycleGuard]
    rw [if_neg]
    intro hcheck
    apply hno
    rcases hw : w.pidFile with _ | contents
    · rw [hw] at hcheck; exact absurd hcheck (by simp)
    · rw [hw] at hcheck
      rcases hr : w.readable with _ | _
      · rw [hr] at hcheck; exact absurd hcheck (by simp)
      · rw [hr] at hcheck
        simp only [if_true] at hcheck
        rcases hp : parsePid contents with _ | pid
        · rw [hp] at hcheck; exact absurd hcheck (by simp)
        · rw [hp] at hcheck
          exact ⟨contents, pid, rfl, rfl, hp, hcheck⟩

/-- Witness for C8 at concrete inputs: a live pid 42 forces exit; a
stale marker is overwritten. -/
theorem C8_singleton_guard_witness :
    lifecycleGuard ⟨some " 42 ", true, fun p => p = 42⟩ 7 =
      (StartupOutcome.exitNonzero, ⟨some " 42 ", true, fun p => p = 42⟩) ∧
    lifecycleGuard ⟨some "42", true, fun _ => false⟩ 7 =
      (StartupOutcome.proceed, ⟨some "7", true, fun _ => false⟩) := by
  constructor
  · exact C8_singleton_guard.1 ⟨some " 42 ", true, fun p => p = 42⟩ 7 42 " 42 "
      rfl rfl (by decide) (by simp)
  · exact C8_singleton_guard.2 ⟨some "42", true, fun _ => false⟩ 7
      (by rintro ⟨c, p, -, -, -, hl⟩; simp at hl)

/-! ## Socket server setup (`run_socket_server`) -/

/-- `SOCKET_PATH` from `main.rs`. -/
def SOCKET_PATH : String := "/tmp/ags-stats/stats.sock"

/-- A filesystem abstracted to two predicates on paths: whether
something occupies the path, and whether an unlink of the path would
succeed (a regular file in a writable directory is removable; a
directory at the path, or a removal denied by permissions, is not). -/
structure FsState where
  occupied : String → Bool
  removable : String → Bool

/-- `let _ = fs::remove_file(p)`: the removal is attempted and its
result discarded.  On success the path is vacated; on failure the
filesystem is unchanged and whatever occupies the path persists. -/
def removeFileAttempt (fs : FsState) (p : String) : FsState :=
  if fs.removable p then
    { fs with occupied := fun q => if q = p then false else fs.occupied q }
  else fs

/-- Result of a bind attempt. -/
inductive BindResult where
  | ok
  | addrInUse
deriving Repr, DecidableEq

/-- Modelled bind on a unix socket path: fails with `addrInUse` exactly
when something already occupies the path, succeeds otherwise (failure
causes outside the path state, such as directory permissions on the
bind itself, are not modelled). -/
def bindModel (fs : FsState) (p : String) : BindResult :=
  if fs.occupied p then BindResult.addrInUse else BindResult.ok

/-- The bind prologue of `run_socket_server`: attempt to remove the old
socket file, ignore the result, then bind at the socket path. -/
def run_socket_server_bind (fs : FsState) : BindResult :=
  bindModel (removeFileAttempt fs SOCKET_PATH) SOCKET_PATH

/-- A filesystem in which the socket path is occupied by an entry the
ignored `remove_file` cannot unlink. -/
def stuckSocketFs : FsState :=
  { occupied := fun q => q == SOCKET_PATH, removable := fun _ => false }

/-- C10 counterexample: `remove_file`'s error is discarded, so when the
entry at the socket path cannot be unlinked it survives the removal
attempt and the bind fails with address-in-use — the failure mode the
claim says can never occur. -/
theorem C10_stale_socket_counterexample :
    (removeFileAttempt stuckSocketFs SOCKET_PATH).occupied SOCKET_PATH = true ∧
    run_socket_server_bind stuckSocketFs = BindResult.addrInUse := by
  constructor
  · simp [removeFileAttempt, stuckSocketFs]
  · simp [run_socket_server_bind, bindModel, removeFileAttempt, stuckSocketFs]

/-- C10 amended: `run_socket_server` always attempts to remove the
socket path before binding; whenever that removal succeeds — or nothing
occupies the path to begin with — the bind is attempted with the path
vacant and cannot fail with address-in-use from a leftover socket
file. -/
theorem C10_socket_remove_attempted :
    ∀ fs : FsState,
      fs.removable SOCKET_PATH = true ∨ fs.occupied SOCKET_PATH = false →
      (removeFileAttempt fs SOCKET_PATH).occupied SOCKET_PATH = false ∧
      run_socket_server_bind fs ≠ BindResult.addrInUse := by
  intro fs hok
  have h : (removeFileAttempt fs SOCKET_PATH).occupied SOCKET_PATH = false := by
    rcases hok with hr | ho
    · simp [removeFileAttempt, hr]
    · simp only [removeFileAttempt]
      split_ifs
      · simp
      · exact ho
  refine ⟨h, ?_⟩
  simp [run_socket_server_bind, bindModel, h]

/-- Witness for C10's amended claim: a removable leftover socket file
does not make the bind fail. -/
theorem C10_socket_remove_attempted_witness :
    run_socket_server_bind ⟨fun q => q == SOCKET_PATH, fun _ => true⟩ ≠
      BindResult.addrInUse :=
  (C10_socket_remove_attempted ⟨fun q => q == SOCKET_PATH, fun _ => true⟩
    (Or.inl rfl)).2
